import Mathlib

/-!
Verification of the "H2 Physics Feynman Bot" chat application
(`app.py`, `deepseek_app.py`) against its natural-language specification.

Strings manipulated by the Python code are modelled as `List Char`
(one list element per Python character).  Python's regular-expression
calls are modelled by explicit scanning functions that implement the
leftmost-match semantics of `re.search` / `re.finditer` for the two
concrete patterns the application uses, and Python's `str.replace`
is modelled by `replaceAll`.  External effects (HTTP requests,
`json.loads`, code execution, the DuckDuckGo client) are modelled as
oracle parameters: their outcomes are data, so exceptions raised by
them become ordinary values and "no exception propagates" corresponds
to totality of the Lean functions.
-/

/-- Characters matched by Python's `\s` class (ASCII range; the
application only feeds it LLM text).  Mirrors `[ \t\n\r\x0b\x0c]`. -/
def pyIsSpace (c : Char) : Bool :=
  c = ' ' || c = '\t' || c = '\n' || c = '\r' || c = '\x0b' || c = '\x0c'

/-- Python `str.lower` on a single character (ASCII letters, which is
all the `re.IGNORECASE` matching of the source needs). -/
def pyLowerChar (c : Char) : Char := Char.toLower c

/-- Python `str.lower` over a whole string. -/
def pyLower (l : List Char) : List Char := l.map pyLowerChar

/-- Python `str.strip()`: remove leading and trailing whitespace. -/
def pyStrip (l : List Char) : List Char :=
  ((l.dropWhile pyIsSpace).reverse.dropWhile pyIsSpace).reverse

/-- Python `str.rstrip()`: remove trailing whitespace only. -/
def pyRStrip (l : List Char) : List Char :=
  (l.reverse.dropWhile pyIsSpace).reverse

/-- Boolean substring test: does `pat` occur contiguously in `s`? -/
def occursB (pat : List Char) : List Char → Bool
  | [] => pat.isEmpty
  | c :: cs => pat.isPrefixOf (c :: cs) || occursB pat cs

/-- Proposition form of `occursB` (decidable by computation). -/
def OccursIn (pat s : List Char) : Prop := occursB pat s = true

/-- Split `s` at the leftmost occurrence of `pat`:
`splitFirst pat s = some (pre, suf)` with `s = pre ++ pat ++ suf`
and no occurrence of `pat` starting earlier.  This is the leftmost
(shortest-prefix) search underlying `re.search` for a literal. -/
def splitFirst (pat : List Char) : List Char → Option (List Char × List Char)
  | [] => if pat.isEmpty then some ([], []) else none
  | c :: cs =>
    if pat.isPrefixOf (c :: cs) then some ([], cs.drop (pat.length - 1))
    else
      match splitFirst pat cs with
      | some (pre, suf) => some (c :: pre, suf)
      | none => none

/-- Python `s.replace(pat, "")`: delete every non-overlapping occurrence
of `pat`, scanning left to right.  This is the `display_content.replace
(match.group(0), "")` step of `display_message` in both source files. -/
def replaceAll (pat : List Char) (s : List Char) : List Char :=
  match s with
  | [] => []
  | c :: cs =>
    if pat ≠ [] ∧ pat.isPrefixOf (c :: cs) then
      replaceAll pat (cs.drop (pat.length - 1))
    else
      c :: replaceAll pat cs
termination_by s.length
decreasing_by
  · simp only [List.length_cons]
    have := List.length_drop (pat.length - 1) cs
    omega
  · simp [List.length_cons]

/-- Opening fence of a Python code block: the literal `  ```python  `. -/
def pyOpen : List Char := ['`', '`', '`', 'p', 'y', 't', 'h', 'o', 'n']

/-- Closing fence: the literal `  ```  `. -/
def fence : List Char := ['`', '`', '`']

/-- All matches of `re.finditer(r'```python(.*?)```', content, re.DOTALL)`
in order, as pairs `(group 1, group 0)`: leftmost, non-overlapping, with
the lazy `(.*?)` stopping at the first closing fence.  Scanning resumes
after each match, exactly as `finditer` does. -/
def pyFinds (s : List Char) : List (List Char × List Char) :=
  match s with
  | [] => []
  | c :: cs =>
    if pyOpen.isPrefixOf (c :: cs) then
      let rest := cs.drop (pyOpen.length - 1)
      match splitFirst fence rest with
      | some (code, _) =>
          (code, pyOpen ++ code ++ fence) :: pyFinds (rest.drop (code.length + fence.length))
      | none => []
    else pyFinds cs
termination_by s.length
decreasing_by
  · simp only [List.length_cons]
    have h1 := List.length_drop (pyOpen.length - 1) cs
    have h2 := List.length_drop (code.length + fence.length) (cs.drop (pyOpen.length - 1))
    omega
  · simp [List.length_cons]

/-- First match of `re.search(r'```python(.*?)```', content, re.DOTALL)`,
as used by `display_message` in `deepseek_app.py`. -/
def pySearch (s : List Char) : Option (List Char × List Char) :=
  (pyFinds s).head?

/-- Step 1 of `display_message` in `app.py` (lines 624-628): collect
`group(1)` of every fenced `python` block and delete each `group(0)`
from the displayed text with `str.replace`.  Returns the remaining text
and the list of extracted code strings. -/
def extractPythonApp (content : List Char) : List Char × List (List Char) :=
  let ms := pyFinds content
  (ms.foldl (fun acc m => replaceAll m.2 acc) content, ms.map (fun m => m.1))

/-- Code-block step of `display_message` in `deepseek_app.py`
(lines 121-123, assistant branch): a single `re.search`, then one
`str.replace` of `group(0)`. -/
def extractPythonDs (content : List Char) : List Char × Option (List Char) :=
  match pySearch content with
  | none => (content, none)
  | some (code, g0) => (replaceAll g0 content, some code)

/-- Lower-case image tag `image:` used for the `re.IGNORECASE` match. -/
def imageTag : List Char := ['i', 'm', 'a', 'g', 'e', ':']

/-- Upper-case image tag as the LLM is instructed to emit it. -/
def imageTagU : List Char := ['I', 'M', 'A', 'G', 'E', ':']

/-- Case-insensitive literal matcher: `matchCI pat s = some rest` when the
first `pat.length` characters of `s` lower-case to `pat`, with `rest` the
remainder.  Models `re.IGNORECASE` for a literal pattern. -/
def matchCI : List Char → List Char → Option (List Char)
  | [], s => some s
  | _ :: _, [] => none
  | p :: ps, c :: cs => if pyLowerChar c = p then matchCI ps cs else none

/-- Scan for the closing `]` of an image marker.  `(.*?)\]` (no
`re.DOTALL`): the lazy dot cannot cross a newline, so the attempt fails
if a `\n` appears before the first `]`. -/
def scanRB : List Char → Option (List Char × List Char)
  | [] => none
  | c :: cs =>
    if c = ']' then some ([], cs)
    else if c = '\n' then none
    else
      match scanRB cs with
      | some (q, r) => some (c :: q, r)
      | none => none

/-- First match of `re.search(r'\[IMAGE:\s*(.*?)\]', text, re.IGNORECASE)`
as `(group 1, group 0)`.  At each position: a literal `[`, the tag
case-insensitively, the greedy `\s*` (whose backtracking can never turn a
failed attempt into a successful one for this pattern, so the maximal
whitespace run is taken), then the lazy scan to `]`.  On a failed attempt
the engine moves one character right, which is what the recursion does. -/
def imageSearch : List Char → Option (List Char × List Char)
  | [] => none
  | c :: cs =>
    if c = '[' then
      match matchCI imageTag cs with
      | some rest =>
        match scanRB (rest.dropWhile pyIsSpace) with
        | some (q, _) =>
            some (q, '[' :: (cs.take imageTag.length ++ rest.takeWhile pyIsSpace ++ q ++ [']']))
        | none => imageSearch cs
      | none => imageSearch cs
    else imageSearch cs

/-- Image-marker step of `display_message` (app.py lines 631-635,
deepseek_app.py lines 125-130, assistant branch): `re.search` for the
marker, capture `group(1)` as the query, and delete `group(0)` from the
displayed text with `str.replace`. -/
def extractImage (content : List Char) : List Char × Option (List Char) :=
  match imageSearch content with
  | none => (content, none)
  | some (q, g0) => (replaceAll g0 content, some q)

/-- The exact text of an upper-case image marker whose text between
`IMAGE:` and `]` is `between`. -/
def markerOf (between : List Char) : List Char :=
  '[' :: (imageTagU ++ between ++ [']'])

/-- Text post-processing pipeline of `display_message` in `app.py` for an
assistant message: code-block extraction, then image-marker extraction.
Returns the remaining display text, the code blocks and the image query. -/
def displayPipelineApp (content : List Char) :
    List Char × List (List Char) × Option (List Char) :=
  let s1 := extractPythonApp content
  let s2 := extractImage s1.1
  (s2.1, s1.2, s2.2)

/-- Text post-processing pipeline of `display_message` in
`deepseek_app.py` for an assistant message. -/
def displayPipelineDs (content : List Char) :
    List Char × Option (List Char) × Option (List Char) :=
  let s1 := extractPythonDs content
  let s2 := extractImage s1.1
  (s2.1, s1.2, s2.2)

/-- Outcome of one Google Custom Search HTTP request, as observed by
`google_search_api`: either an exception from `requests.get`/`.json()`,
or a response with an HTTP status code and the parsed `items` links
(absent or empty `items` is the empty list). -/
inductive GoogleOutcome where
  | exnRaised : GoogleOutcome
  | resp (status : Nat) (items : List String) : GoogleOutcome
deriving DecidableEq

/-- Outcome of the DuckDuckGo image search, as observed by
`duckduckgo_search_api`: an exception from the client, no result,
or a first result with an image URL. -/
inductive DdgOutcome where
  | exnRaised (msg : String) : DdgOutcome
  | noResult : DdgOutcome
  | found (url : String) : DdgOutcome
deriving DecidableEq

/-- Configuration and network oracle for `search_image`: the secret
values (`None`/absent modelled as `none`) and the behaviour of the two
external providers for each key/query. -/
structure SearchEnv where
  cx : Option String
  key1 : Option String
  key2 : Option String
  google : String → String → GoogleOutcome
  ddg : DdgOutcome

/-- Python truthiness of an optional string (`if key1 and cx:`). -/
def truthy : Option String → Bool
  | none => false
  | some s => !s.isEmpty

/-- The `link.lower().endswith(('.jpg', '.jpeg', '.png'))` test of
`google_search_api` in `deepseek_app.py`. -/
def endsWithImageExt (link : String) : Bool :=
  link.toLower.endsWith ".jpg" || link.toLower.endsWith ".jpeg" ||
    link.toLower.endsWith ".png"

/-- `google_search_api` of `deepseek_app.py` (lines 38-68): returns
`None` on an exception or a 403/429 status; otherwise the first link
with an image extension, else the first link, else `None`. -/
def google_search_api_ds (env : SearchEnv) (query key : String) : Option String :=
  match env.google key query with
  | .exnRaised => none
  | .resp status items =>
    if status = 403 || status = 429 then none
    else if items.isEmpty then none
    else
      match items.find? endsWithImageExt with
      | some l => some l
      | none => items.head?

/-- `google_search_api` of `app.py` (lines 555-569): no status check;
the first item link if `items` is present and non-empty, else `None`
(exceptions also yield `None`). -/
def google_search_api_app (env : SearchEnv) (query key : String) : Option String :=
  match env.google key query with
  | .exnRaised => none
  | .resp _ items => items.head?

/-- `duckduckgo_search_api` (both files): the first image URL, the
string `"No image found."` when the iterator is empty, or
`"Search Error: <e>"` when the client raises. -/
def duckduckgo_search_api : DdgOutcome → String
  | .found url => url
  | .noResult => "No image found."
  | .exnRaised msg => "Search Error: " ++ msg

/-- `search_image` of `deepseek_app.py` (lines 82-103):
Google key 1, then Google key 2, then DuckDuckGo. -/
def search_image_ds (env : SearchEnv) (query : String) : String :=
  match (if truthy env.key1 && truthy env.cx then
           google_search_api_ds env query (env.key1.getD "") else none) with
  | some url => url
  | none =>
    match (if truthy env.key2 && truthy env.cx then
             google_search_api_ds env query (env.key2.getD "") else none) with
    | some url => url
    | none => duckduckgo_search_api env.ddg

/-- `search_image` of `app.py` (lines 583-597): same chain over the
`app.py` variant of the Google helper. -/
def search_image_app (env : SearchEnv) (query : String) : String :=
  match (if truthy env.key1 && truthy env.cx then
           google_search_api_app env query (env.key1.getD "") else none) with
  | some url => url
  | none =>
    match (if truthy env.key2 && truthy env.cx then
             google_search_api_app env query (env.key2.getD "") else none) with
    | some url => url
    | none => duckduckgo_search_api env.ddg

/-- Outcome of `exec(code_snippet, {}, local_env)` inside
`execute_plotting_code`: either it completes, or it raises an exception
whose rendered message is `msg`. -/
inductive ExecOutcome where
  | completed : ExecOutcome
  | raised (msg : String) : ExecOutcome
deriving DecidableEq

/-- What `execute_plotting_code` renders in the UI. -/
inductive PlotUi where
  | figure : PlotUi
  | errorBox (text : String) : PlotUi
deriving DecidableEq

/-- `execute_plotting_code` (app.py lines 599-608, deepseek_app.py lines
105-114): run the snippet; on success show the figure, on any exception
catch it and show `st.error(f"Graph Error: ...")`.  The function is
total: no exception escapes to the caller, so the turn always
completes. -/
def execute_plotting_code (outcome : ExecOutcome) : PlotUi :=
  match outcome with
  | .completed => .figure
  | .raised msg => .errorBox ("Graph Error: " ++ msg)

/-- Role of a chat message. -/
inductive Role where
  | system : Role
  | user : Role
  | assistant : Role
deriving DecidableEq

/-- One entry of `st.session_state.messages` or of an API payload. -/
structure ChatMsg where
  role : Role
  content : String
deriving DecidableEq

/-- The greeting seeded into `st.session_state.messages` by `app.py`
(lines 922-938). -/
def greetingApp : ChatMsg :=
  ⟨.assistant, "Hello! I\x27m your JPJC Physics tutor.\n\n**To get started:**\n1. **Select a specific topic** from the sidebar (not \x27General / Any\x27)\n2. Choose your learning level (Beginner/Intermediate/Advanced)\n3. Ask your physics question!\n\n**Why select a topic?**\n- Get explanations aligned with SEAB H2 Physics syllabus\n- Focus on specific learning outcomes\n- Receive exam-relevant examples and explanations\n\nReady to explore physics? Select a topic above! ⚛️"⟩

/-- The greeting seeded by `deepseek_app.py` (lines 293-298). -/
def greetingDs : ChatMsg :=
  ⟨.assistant, "Hello JPJC Physics students! I can **find diagrams** and **plot graphs**. What can I explain?"⟩

/-- Initial conversation log of `app.py`: the single seeded greeting. -/
def initMessagesApp : List ChatMsg := [greetingApp]

/-- Initial conversation log of `deepseek_app.py`. -/
def initMessagesDs : List ChatMsg := [greetingDs]

/-- One completed user/assistant turn pair: `app.py` appends the user
prompt (line 974) and, when the API call succeeds, the assistant reply
(line 1011); `deepseek_app.py` does the same (lines 308, 344). -/
def completedTurn (log : List ChatMsg) (prompt reply : String) : List ChatMsg :=
  log ++ [⟨.user, prompt⟩] ++ [⟨.assistant, reply⟩]

/-- Run a sequence of completed turn pairs against a starting log. -/
def runTurns (log : List ChatMsg) (turns : List (String × String)) : List ChatMsg :=
  turns.foldl (fun l t => completedTurn l t.1 t.2) log

/-- Expected flat list of entries contributed by a list of turn pairs. -/
def turnEntries : List (String × String) → List ChatMsg
  | [] => []
  | t :: ts => ⟨.user, t.1⟩ :: ⟨.assistant, t.2⟩ :: turnEntries ts

/-- The Clear Chat handler of `app.py` (lines 848-850): reset the log to
a single assistant greeting (a short one, distinct from the seed). -/
def clearChatApp (_log : List ChatMsg) : List ChatMsg :=
  [⟨.assistant, "Hello! I\x27m your JPJC Physics tutor. What concept shall we explore today?"⟩]

/-- The Clear Chat handler of `deepseek_app.py` (lines 284-286): reset
the log to the empty list (the greeting is only re-seeded when the
`messages` key is missing from the session, which it is not). -/
def clearChatDs (_log : List ChatMsg) : List ChatMsg := []

/-- Count occurrences of a message in a payload. -/
def countMsg (m : ChatMsg) : List ChatMsg → Nat
  | [] => 0
  | x :: xs => (if x = m then 1 else 0) + countMsg m xs

/-- Python `l[-n:]`: the trailing window of at most `n` entries. -/
def takeLastMsgs (n : Nat) (l : List ChatMsg) : List ChatMsg :=
  l.drop (l.length - n)

/-- The role-normalising loop of the `deepseek_app.py` chat handler
(lines 331-335): assistant entries stay assistant, everything else is
sent as user. -/
def normRoleDs (m : ChatMsg) : ChatMsg :=
  if m.role = .assistant then ⟨.assistant, m.content⟩ else ⟨.user, m.content⟩

/-- Request payload built by the `deepseek_app.py` chat handler (lines
316-341) from the session history `history` (before this turn) and the
latest `user_input`: the user input is first appended to the session log
(line 308), the system block is prepended, the last 10 entries of the
log (which include the just-appended user input) are copied in, and the
user input is appended once more (line 338). -/
def build_payload_ds (sys : String) (history : List ChatMsg) (user_input : String) :
    List ChatMsg :=
  let log := history ++ [⟨.user, user_input⟩]
  let recent := takeLastMsgs 10 log
  ⟨.system, sys⟩ :: (recent.map normRoleDs ++ [⟨.user, user_input⟩])

/-- Request payload built by the `app.py` chat handler (lines 974,
999-1004) via `call_deepseek` (lines 667-684): the system instruction
followed by the entire session log including the just-appended user
input; there is no trailing window. -/
def build_payload_app (instr : String) (history : List ChatMsg) (user_input : String) :
    List ChatMsg :=
  ⟨.system, instr⟩ :: (history ++ [⟨.user, user_input⟩])

/-- Per-run outcome of `check_login` in `app.py` (lines 501-531). -/
inductive LoginOutcome where
  | rendered : LoginOutcome
  | rerunAuthenticated : LoginOutcome
  | halted (showedError : Bool) : LoginOutcome
deriving DecidableEq

/-- `check_login`: when `APP_PASSWORD` is absent from the environment the
login gate is skipped and the page renders; when the session is already
authenticated the page renders; otherwise the login form is shown and
the script is stopped (`st.stop`), except that a submission matching the
stored password sets the session flag and reruns. -/
def check_login (appPassword : Option String) (authenticated : Bool)
    (submitted : Option String) : LoginOutcome :=
  match appPassword with
  | none => .rendered
  | some stored =>
    if authenticated then .rendered
    else
      match submitted with
      | some entered =>
        if entered = stored then .rerunAuthenticated else .halted true
      | none => .halted false

/-- Whether a login outcome halted rendering of the rest of the page. -/
def loginHalts : LoginOutcome → Bool
  | .halted _ => true
  | _ => false

/-- JSON-like values produced by `json.loads` (numbers modelled as
integers; the claims under verification do not depend on float
values). -/
inductive JValue where
  | null : JValue
  | jbool (b : Bool) : JValue
  | jnum (n : Int) : JValue
  | jstr (s : String) : JValue
  | jarr (items : List JValue) : JValue
  | jobj (fields : List (String × JValue)) : JValue

/-- Python `repr` of a value (the shape `str` falls back to for
non-string values; the exact text of container reprs does not affect
the verified claims). -/
def pyReprV : JValue → String
  | .null => "None"
  | .jbool b => if b then "True" else "False"
  | .jnum n => toString n
  | .jstr s => "\x27" ++ s ++ "\x27"
  | .jarr items =>
      "[" ++ String.intercalate ", " (items.attach.map (fun x => pyReprV x.1)) ++ "]"
  | .jobj fields =>
      "\x7b" ++ String.intercalate ", "
        (fields.attach.map (fun f => "\x27" ++ f.1.1 ++ "\x27: " ++ pyReprV f.1.2)) ++ "\x7d"
decreasing_by
  · have := List.sizeOf_lt_of_mem x.2
    simp only [JValue.jarr.sizeOf_spec]
    omega
  · have h1 := List.sizeOf_lt_of_mem f.2
    obtain ⟨⟨a, b⟩, hf⟩ := f
    simp_all only [Prod.mk.sizeOf_spec, JValue.jobj.sizeOf_spec]
    omega

/-- Python `str()` of a value: strings unchanged, everything else via
its repr-like rendering. -/
def pyStrV : JValue → String
  | .jstr s => s
  | v => pyReprV v

/-- Parse a run of decimal digits (Python `int` literal body). -/
def parseDigits (l : List Char) : Option Nat :=
  if l ≠ [] ∧ l.all Char.isDigit then
    some (l.foldl (fun a c => a * 10 + (c.toNat - 48)) 0)
  else none

/-- Python `int(s)` for a string: strip whitespace, optional sign,
decimal digits; anything else raises `ValueError`. -/
def parseIntStr (l : List Char) : Option Int :=
  match pyStrip l with
  | '-' :: ds => (parseDigits ds).map (fun n => -(n : Int))
  | '+' :: ds => (parseDigits ds).map (fun n => (n : Int))
  | ds => (parseDigits ds).map (fun n => (n : Int))

/-- Python `int(v)`: numbers and booleans convert, numeric strings
parse, everything else raises (modelled as `Except.error`). -/
def pyIntV : JValue → Except String Int
  | .jnum n => .ok n
  | .jbool b => .ok (if b then 1 else 0)
  | .jstr s =>
    match parseIntStr s.data with
    | some n => .ok n
    | none => .error "invalid literal for int with base 10"
  | .null => .error "int argument must not be NoneType"
  | .jarr _ => .error "int argument must not be a list"
  | .jobj _ => .error "int argument must not be a dict"

/-- Python `q.get(key, dflt)` on a parsed JSON object (keys of an object
produced by `json.loads` are distinct, so first match suffices). -/
def jGet (fields : List (String × JValue)) (key : String) (dflt : JValue) : JValue :=
  match fields.find? (fun f => f.1 == key) with
  | some f => f.2
  | none => dflt

/-- Python `str.strip()` at the `String` level. -/
def pyStripS (s : String) : String := String.mk (pyStrip s.data)

/-- Python `str.lower()` at the `String` level. -/
def pyLowerS (s : String) : String := String.mk (pyLower s.data)

/-- One validated quiz question: exactly the six keys the validation
loop of `parse_quiz_response` constructs (app.py lines 323-330). -/
structure QuizQ where
  question_number : Int
  question_type : String
  question : String
  options : List String
  correct_answer : String
  explanation : String
deriving DecidableEq

/-- The body of the validation loop of `parse_quiz_response` (app.py
lines 318-331) for item number `i` (0-based): non-dict items are
skipped (`.ok none`); `int(...)` may raise, which propagates to the
enclosing handler (`.error`). -/
def validateItem (i : Nat) (q : JValue) : Except String (Option QuizQ) :=
  match q with
  | .jobj fields =>
    match pyIntV (jGet fields "question_number" (.jnum (Int.ofNat (i + 1)))) with
    | .error e => .error e
    | .ok qn =>
      .ok (some
        { question_number := qn
          question_type := pyLowerS (pyStrV (jGet fields "question_type" (.jstr "mcq")))
          question := pyStripS (pyStrV (jGet fields "question" (.jstr ("Question " ++ toString (i + 1)))))
          options :=
            (match jGet fields "options" .null with
             | .jarr opts => opts.map (fun o => pyStripS (pyStrV o))
             | _ => [])
          correct_answer := pyStripS (pyStrV (jGet fields "correct_answer" (.jstr "")))
          explanation := pyStripS (pyStrV (jGet fields "explanation" (.jstr ""))) })
  | _ => .ok none

/-- The whole validation loop (`for i, q in enumerate(questions)`). -/
def validateAll (i : Nat) : List JValue → Except String (List QuizQ)
  | [] => .ok []
  | q :: rest =>
    match validateItem i q with
    | .error e => .error e
    | .ok none => validateAll (i + 1) rest
    | .ok (some v) =>
      match validateAll (i + 1) rest with
      | .error e => .error e
      | .ok vs => .ok (v :: vs)

/-- Scan to the next apostrophe: `some (content, rest)` with the text
before it and the text after it. -/
def scanApos : List Char → Option (List Char × List Char)
  | [] => none
  | c :: cs =>
    if c = '\x27' then some ([], cs)
    else
      match scanApos cs with
      | some (q, r) => some (c :: q, r)
      | none => none

/-- The `re.sub(r",\s*([\]}])", r"\1", ...)` pass of
`parse_quiz_response` (app.py line 307): delete a comma (and following
whitespace) that directly precedes a closing bracket or brace. -/
def subTrailingComma (s : List Char) : List Char :=
  match s with
  | [] => []
  | c :: cs =>
    if c = ',' then
      match (cs.dropWhile pyIsSpace).head? with
      | some b =>
        if b = ']' || b = '\x7d' then b :: subTrailingComma (cs.dropWhile pyIsSpace).tail
        else c :: subTrailingComma cs
      | none => c :: subTrailingComma cs
    else c :: subTrailingComma cs
termination_by s.length
decreasing_by
  all_goals simp only [List.length_cons]
  all_goals first
    | (have h1 : (cs.dropWhile pyIsSpace).length ≤ cs.length :=
         (List.dropWhile_suffix pyIsSpace).length_le
       have h2 := List.length_tail (cs.dropWhile pyIsSpace)
       omega)
    | omega

/-- The `re.sub(r"'([^']+)':", r'"\1":', ...)` pass of
`parse_quiz_response` (app.py line 308): rewrite single-quoted object
keys to double-quoted ones. -/
def subSingleQuotedKeys (s : List Char) : List Char :=
  match s with
  | [] => []
  | c :: cs =>
    if c = '\x27' then
      match scanApos cs with
      | some (content, rest) =>
        match content, rest with
        | _ :: _, ':' :: _ =>
            '"' :: content ++ '"' :: ':' :: subSingleQuotedKeys (cs.drop (content.length + 2))
        | _, _ => c :: subSingleQuotedKeys cs
      | none => c :: subSingleQuotedKeys cs
    else c :: subSingleQuotedKeys cs
termination_by s.length
decreasing_by
  all_goals simp only [List.length_cons]
  all_goals first
    | (have hd := List.length_drop (content.length + 2) cs
       omega)
    | omega

/-- The `fix_unescaped_quotes` helper of `parse_quiz_response` (app.py
lines 268-303), modelled exactly: `acc` is the reversed `result` list
(each element one appended string, as in the Python list), `inString`
and `escapeNext` its two state flags.  The previous-character heuristic
joins the last 10 appended strings and right-strips; the lookahead
left-strips the next 9 characters of the input. -/
def fixUQGo : List Char → List (List Char) → Bool → Bool → List Char
  | [], acc, _, _ => (acc.reverse).flatten
  | ch :: restChars, acc, inString, escapeNext =>
    if escapeNext then fixUQGo restChars ([ch] :: acc) inString false
    else if ch = '\\' then fixUQGo restChars ([ch] :: acc) inString true
    else if ch = '"' then
      let window := ((acc.take 10).reverse).flatten
      let prevOk :=
        match window.reverse.dropWhile pyIsSpace with
        | p :: _ => p = ':' || p = '\x7b' || p = ','
        | [] => false
      if !inString && prevOk then fixUQGo restChars ([ch] :: acc) true false
      else if inString then
        let nextOk :=
          match (restChars.take 9).dropWhile pyIsSpace with
          | n :: _ => n = ',' || n = '\x7d' || n = ']'
          | [] => false
        if nextOk then fixUQGo restChars ([ch] :: acc) false false
        else fixUQGo restChars (['\\', ch] :: acc) inString false
      else fixUQGo restChars ([ch] :: acc) inString false
    else fixUQGo restChars ([ch] :: acc) inString false

/-- Entry point of `fix_unescaped_quotes`. -/
def fix_unescaped_quotes (l : List Char) : List Char := fixUQGo l [] false false

/-- Python `str.find(c)`. -/
def pyFindChar (c : Char) (l : List Char) : Option Nat :=
  l.findIdx? (fun x => x = c)

/-- Python `str.rfind(c)`. -/
def pyRFindChar (c : Char) (l : List Char) : Option Nat :=
  match l.reverse.findIdx? (fun x => x = c) with
  | some i => some (l.length - 1 - i)
  | none => none

/-- `parse_quiz_response` (app.py lines 252-358).  `json.loads` is the
Python standard library and is passed in as the oracle `jloads`; every
internal step (bracket slicing, the three clean-up passes, validation,
and the exception handlers that return `None`) is modelled from the
source. -/
def parse_quiz_response (jloads : String → Except String JValue)
    (response_text : String) : Option (List QuizQ) :=
  let cs := response_text.data
  match pyFindChar '[' cs, pyRFindChar ']' cs with
  | some start_idx, some end_idx =>
    let json_str := (cs.drop start_idx).take (end_idx + 1 - start_idx)
    let fixed := subSingleQuotedKeys (subTrailingComma (fix_unescaped_quotes json_str))
    match jloads (String.mk fixed) with
    | .error _ => none
    | .ok v =>
      let questions := match v with | .jarr xs => xs | other => [other]
      match validateAll 0 questions with
      | .error _ => none
      | .ok validated => some validated
  | _, _ => none

/-- Result of one execution of the Generate Quiz button handler in
`app.py` (lines 761-833). -/
inductive QuizHandlerOutcome where
  | errorShown (msg : String) : QuizHandlerOutcome
  | quizActivated (questions : List QuizQ) : QuizHandlerOutcome
deriving DecidableEq

/-- Message of the `NameError` Python raises when the debug block reads
the unassigned module name `quiz_questions`. -/
def nameErrorQuizQuestions : String := "name \x27quiz_questions\x27 is not defined"

/-- Binding of the module-level name `quiz_questions` when the debug
block (app.py lines 802-807) executes: Streamlit re-runs the script in
a fresh module namespace, and the only assignments to `quiz_questions`
in the script (lines 811 and 859) are textually after the debug block
in this run, so the name is unbound. -/
def quizQuestionsBindingAtDebug : Option (List QuizQ) := none

/-- The Generate Quiz button handler of `app.py` (lines 761-833) after
the key check: call the API (`callResult` the oracle outcome), run the
debug block (which reads the module name `quiz_questions`, raising
`NameError` when it is unbound), then parse and either activate the
quiz session or show the failure message.  Any exception is caught at
line 832 and shown as `Error generating quiz: ...`. -/
def generate_quiz_handler (callResult : Except String String)
    (binding : Option (List QuizQ))
    (parse : String → Option (List QuizQ)) : QuizHandlerOutcome :=
  match callResult with
  | .error e => .errorShown ("Error generating quiz: " ++ e)
  | .ok response =>
    match binding with
    | none => .errorShown ("Error generating quiz: " ++ nameErrorQuizQuestions)
    | some _ =>
      match parse response with
      | some qs =>
        if qs.length > 0 then .quizActivated qs
        else .errorShown "Failed to generate quiz questions. Please try again."
      | none => .errorShown "Failed to generate quiz questions. Please try again."

/-- Concrete search environment used by the C3 witness: both Google
keys configured, every Google request answered with a 403 status and no
items, and an empty DuckDuckGo result. -/
def envTest : SearchEnv :=
  { cx := some "c", key1 := some "k1", key2 := some "k2",
    google := fun _ _ => GoogleOutcome.resp 403 [], ddg := DdgOutcome.noResult }

/-- Concrete `json.loads` oracle used by the C10 witness: ignores its
input and returns one quiz-question object. -/
def jloadsTest : String → Except String JValue := fun _ =>
  .ok (.jarr [.jobj
    [("question_number", .jnum 2),
     ("question_type", .jstr "MCQ"),
     ("question", .jstr "  Why?  "),
     ("options", .jarr [.jstr " A ", .jstr "B"]),
     ("correct_answer", .jstr " A"),
     ("explanation", .jstr " because ")]])

/-- The quiz question the C10 witness expects `parse_quiz_response` to
produce from `jloadsTest`. -/
def quizQTest : QuizQ :=
  { question_number := 2, question_type := "mcq", question := "Why?",
    options := ["A", "B"], correct_answer := "A", explanation := "because" }

theorem occursB_iff (pat s : List Char) :
    occursB pat s = true ↔ ∃ a b, s = a ++ pat ++ b := by
  induction s with
  | nil =>
    simp only [occursB, List.isEmpty_iff]
    constructor
    · rintro rfl
      exact ⟨[], [], rfl⟩
    · rintro ⟨a, b, h⟩
      have := h.symm
      simp only [List.append_assoc, List.append_eq_nil] at this
      exact this.2.1
  | cons c cs ih =>
    simp only [occursB, Bool.or_eq_true, ih]
    constructor
    · rintro (hp | ⟨a, b, rfl⟩)
      · obtain ⟨t, ht⟩ := List.isPrefixOf_iff_prefix.mp hp
        exact ⟨[], t, by simp [← ht]⟩
      · exact ⟨c :: a, b, rfl⟩
    · rintro ⟨a, b, h⟩
      cases a with
      | nil =>
        left
        simp only [List.nil_append] at h
        exact List.isPrefixOf_iff_prefix.mpr ⟨b, by rw [h]⟩
      | cons x xs =>
        right
        simp only [List.cons_append, List.cons.injEq] at h
        exact ⟨xs, b, h.2⟩

theorem leftmost_of_take (pat s : List Char) (k : Nat) (hpat : pat ≠ [])
    (h : occursB pat (s.take (k + (pat.length - 1))) = false) :
    ∀ a b, s = a ++ pat ++ b → k ≤ a.length := by
  intro a b hs
  by_contra hk
  push_neg at hk
  have hplen : 1 ≤ pat.length := by
    cases pat with
    | nil => exact absurd rfl hpat
    | cons _ _ => simp
  have htake : s.take (k + (pat.length - 1)) =
      a ++ pat ++ b.take (k + (pat.length - 1) - a.length - pat.length) := by
    subst hs
    rw [List.append_assoc, List.take_append_eq_append_take,
      List.take_of_length_le (by omega), List.take_append_eq_append_take,
      List.take_of_length_le (by omega), List.append_assoc]
  have hocc : occursB pat
      (a ++ pat ++ b.take (k + (pat.length - 1) - a.length - pat.length)) = true :=
    (occursB_iff _ _).mpr ⟨a, _, rfl⟩
  rw [htake] at h
  rw [h] at hocc
  exact Bool.false_ne_true hocc

theorem splitFirst_cons (pat : List Char) (c : Char) (cs : List Char) :
    splitFirst pat (c :: cs) =
      if pat.isPrefixOf (c :: cs) then some ([], cs.drop (pat.length - 1))
      else
        match splitFirst pat cs with
        | some (pre, suf) => some (c :: pre, suf)
        | none => none := rfl

theorem splitFirst_eq_some (pat : List Char) (hpat : pat ≠ []) :
    ∀ pre suf : List Char,
      (∀ a b, pre ++ pat ++ suf = a ++ pat ++ b → pre.length ≤ a.length) →
      splitFirst pat (pre ++ pat ++ suf) = some (pre, suf) := by
  intro pre
  induction pre with
  | nil =>
    intro suf _
    obtain ⟨p, pt, rfl⟩ : ∃ p pt, pat = p :: pt := by
      cases pat with
      | nil => exact absurd rfl hpat
      | cons p pt => exact ⟨p, pt, rfl⟩
    simp only [List.nil_append, List.cons_append, splitFirst]
    rw [if_pos (List.isPrefixOf_iff_prefix.mpr (by exact List.prefix_append _ _))]
    simp [List.drop_left' (by simp : pt.length = (p :: pt).length - 1) ]
  | cons c pre' ih =>
    intro suf hmin
    have hnp : ¬ pat <+: c :: (pre' ++ pat ++ suf) := by
      intro hp
      obtain ⟨t, ht⟩ := hp
      have := hmin [] t (by simp only [List.nil_append]; rw [ht]; simp)
      simp at this
    have hsplit : (c :: pre') ++ pat ++ suf = c :: (pre' ++ pat ++ suf) := by simp
    rw [hsplit, splitFirst_cons, if_neg (by simpa using hnp),
      ih suf (fun a b hab => by
        have := hmin (c :: a) b (by simpa using hab)
        simpa using this)]

theorem splitFirst_isSome (pat : List Char) :
    ∀ s : List Char, occursB pat s = true →
      ∃ pr sf, splitFirst pat s = some (pr, sf) := by
  intro s
  induction s with
  | nil =>
    intro h
    simp only [occursB, List.isEmpty_iff] at h
    subst h
    exact ⟨[], [], rfl⟩
  | cons c cs ih =>
    intro h
    by_cases hp : pat.isPrefixOf (c :: cs) = true
    · exact ⟨[], _, by rw [splitFirst_cons, if_pos hp]⟩
    · have hcs : occursB pat cs = true := by
        simp only [occursB, Bool.or_eq_true] at h
        rcases h with h | h
        · exact absurd h hp
        · exact h
      obtain ⟨pr, sf, hps⟩ := ih hcs
      refine ⟨c :: pr, sf, ?_⟩
      rw [splitFirst_cons, if_neg hp, hps]

theorem replaceAll_cons_pos (pat : List Char) (c : Char) (cs : List Char)
    (h1 : pat ≠ []) (h2 : pat.isPrefixOf (c :: cs) = true) :
    replaceAll pat (c :: cs) = replaceAll pat (cs.drop (pat.length - 1)) := by
  rw [replaceAll]
  simp [h1, h2]

theorem replaceAll_cons_neg (pat : List Char) (c : Char) (cs : List Char)
    (h2 : ¬ pat.isPrefixOf (c :: cs) = true) :
    replaceAll pat (c :: cs) = c :: replaceAll pat cs := by
  rw [replaceAll]
  simp [h2]

theorem replaceAll_leftmost (pat : List Char) (hpat : pat ≠ []) :
    ∀ pre suf : List Char,
      (∀ a b, pre ++ pat ++ suf = a ++ pat ++ b → pre.length ≤ a.length) →
      replaceAll pat (pre ++ pat ++ suf) = pre ++ replaceAll pat suf := by
  intro pre
  induction pre with
  | nil =>
    intro suf _
    obtain ⟨p, pt, rfl⟩ : ∃ p pt, pat = p :: pt := by
      cases pat with
      | nil => exact absurd rfl hpat
      | cons p pt => exact ⟨p, pt, rfl⟩
    have hsplit : ([] : List Char) ++ (p :: pt) ++ suf = p :: (pt ++ suf) := by simp
    rw [hsplit, replaceAll_cons_pos _ _ _ hpat
      (List.isPrefixOf_iff_prefix.mpr (by simpa using List.prefix_append (p :: pt) suf))]
    rw [List.drop_left' (by simp : pt.length = (p :: pt).length - 1)]
    simp
  | cons c pre' ih =>
    intro suf hmin
    have hnp : ¬ pat.isPrefixOf (c :: (pre' ++ pat ++ suf)) = true := by
      intro hp
      obtain ⟨t, ht⟩ := List.isPrefixOf_iff_prefix.mp hp
      have := hmin [] t (by simp only [List.nil_append]; rw [ht]; simp)
      simp at this
    have hsplit : (c :: pre') ++ pat ++ suf = c :: (pre' ++ pat ++ suf) := by simp
    rw [hsplit, replaceAll_cons_neg _ _ _ hnp,
      ih suf (fun a b hab => by
        have := hmin (c :: a) b (by simpa using hab)
        simpa using this)]
    simp

theorem replaceAll_no_occur (pat : List Char) :
    ∀ s : List Char, occursB pat s = false → replaceAll pat s = s := by
  intro s
  induction s with
  | nil => intro _; rw [replaceAll]
  | cons c cs ih =>
    intro h
    simp only [occursB, Bool.or_eq_false_iff] at h
    rw [replaceAll_cons_neg _ _ _ (by simp [h.1]), ih h.2]

theorem leftmost_of_head_notin (ch : Char) (tl pre suf : List Char) (hch : ch ∉ pre) :
    ∀ a b, pre ++ (ch :: tl) ++ suf = a ++ (ch :: tl) ++ b → pre.length ≤ a.length := by
  intro a b h
  by_contra hk
  push_neg at hk
  rw [List.append_assoc, List.append_assoc] at h
  rcases List.append_eq_append_iff.mp h with ⟨a', ha, _⟩ | ⟨c', hc, hd⟩
  · have := congrArg List.length ha
    simp only [List.length_append] at this
    omega
  · cases c' with
    | nil =>
      have := congrArg List.length hc
      simp only [List.append_nil] at this
      omega
    | cons x xs =>
      have hx : ch = x := by
        have := congrArg List.head? hd
        simpa using this
      apply hch
      rw [hc, hx]
      exact List.mem_append_right a (by simp)

theorem occursB_append_head_notin (ch : Char) (tl pre post : List Char)
    (hch : ch ∉ pre) (hpost : occursB (ch :: tl) post = false) :
    occursB (ch :: tl) (pre ++ post) = false := by
  by_contra hb
  have ht : occursB (ch :: tl) (pre ++ post) = true := by
    cases hq : occursB (ch :: tl) (pre ++ post) with
    | false => exact absurd hq hb
    | true => rfl
  obtain ⟨a, b, hab⟩ := (occursB_iff _ _).mp ht
  rw [List.append_assoc] at hab
  rcases List.append_eq_append_iff.mp hab with ⟨a', _, hb'⟩ | ⟨c', hc, hd⟩
  · have : occursB (ch :: tl) post = true :=
      (occursB_iff _ _).mpr ⟨a', b, by rw [hb', List.append_assoc]⟩
    rw [hpost] at this
    exact Bool.false_ne_true this
  · cases c' with
    | nil =>
      simp only [List.nil_append] at hd
      have : occursB (ch :: tl) post = true :=
        (occursB_iff _ _).mpr ⟨[], b, by rw [← hd]; simp⟩
      rw [hpost] at this
      exact Bool.false_ne_true this
    | cons x xs =>
      have hx : ch = x := by
        have := congrArg List.head? hd
        simpa using this
      apply hch
      rw [hc, hx]
      exact List.mem_append_right a (by simp)

theorem pyFinds_nil : pyFinds [] = [] := by rw [pyFinds]

theorem pyFinds_cons_pos (c : Char) (cs code suf : List Char)
    (h : pyOpen.isPrefixOf (c :: cs) = true)
    (hsf : splitFirst fence (cs.drop (pyOpen.length - 1)) = some (code, suf)) :
    pyFinds (c :: cs) = (code, pyOpen ++ code ++ fence) ::
      pyFinds ((cs.drop (pyOpen.length - 1)).drop (code.length + fence.length)) := by
  rw [pyFinds]
  simp [h, hsf]

theorem pyFinds_cons_neg (c : Char) (cs : List Char)
    (h : ¬ pyOpen.isPrefixOf (c :: cs) = true) :
    pyFinds (c :: cs) = pyFinds cs := by
  rw [pyFinds]
  simp [h]

theorem pyFinds_match : ∀ pre code post : List Char,
    (∀ a b, pre ++ pyOpen ++ code ++ fence ++ post = a ++ pyOpen ++ b →
       pre.length ≤ a.length) →
    (∀ a b, code ++ fence ++ post = a ++ fence ++ b → code.length ≤ a.length) →
    pyFinds (pre ++ pyOpen ++ code ++ fence ++ post) =
      (code, pyOpen ++ code ++ fence) :: pyFinds post := by
  intro pre
  induction pre with
  | nil =>
    intro code post _ hC
    have hsplit : ([] : List Char) ++ pyOpen ++ code ++ fence ++ post =
        '`' :: (['`', '`', 'p', 'y', 't', 'h', 'o', 'n'] ++ (code ++ fence ++ post)) := by
      simp [pyOpen]
    rw [hsplit]
    have hdrop : (['`', '`', 'p', 'y', 't', 'h', 'o', 'n'] ++ (code ++ fence ++ post)).drop
        (pyOpen.length - 1) = code ++ fence ++ post :=
      List.drop_left' (by simp [pyOpen])
    have hsf : splitFirst fence ((['`', '`', 'p', 'y', 't', 'h', 'o', 'n'] ++
        (code ++ fence ++ post)).drop (pyOpen.length - 1)) = some (code, post) := by
      rw [hdrop]
      exact splitFirst_eq_some fence (by simp [fence]) code post hC
    rw [pyFinds_cons_pos _ _ code post (by
        apply List.isPrefixOf_iff_prefix.mpr
        have : pyOpen ++ (code ++ fence ++ post) =
            '`' :: (['`', '`', 'p', 'y', 't', 'h', 'o', 'n'] ++ (code ++ fence ++ post)) := by
          simp [pyOpen]
        rw [← this]
        exact List.prefix_append _ _) hsf]
    rw [hdrop]
    have : (code ++ fence ++ post).drop (code.length + fence.length) = post := by
      rw [List.append_assoc] at *
      rw [show code ++ (fence ++ post) = (code ++ fence) ++ post by simp]
      exact List.drop_left' (by simp)
    rw [this]
  | cons c pre' ih =>
    intro code post hL hC
    have hsplit : (c :: pre') ++ pyOpen ++ code ++ fence ++ post =
        c :: (pre' ++ pyOpen ++ code ++ fence ++ post) := by simp
    have hnp : ¬ pyOpen.isPrefixOf (c :: (pre' ++ pyOpen ++ code ++ fence ++ post)) = true := by
      intro hp
      obtain ⟨t, ht⟩ := List.isPrefixOf_iff_prefix.mp hp
      have := hL [] t (by
        simp only [List.nil_append]
        rw [← hsplit] at ht
        exact ht.symm)
      simp at this
    rw [hsplit, pyFinds_cons_neg _ _ hnp]
    exact ih code post
      (fun a b hab => by
        have := hL (c :: a) b (by rw [hsplit]; simpa using hab)
        simpa using this)
      hC

theorem pyFinds_ne_nil : ∀ a c0 b : List Char,
    pyFinds (a ++ pyOpen ++ c0 ++ fence ++ b) ≠ [] := by
  intro a
  induction a with
  | nil =>
    intro c0 b
    have hsplit : ([] : List Char) ++ pyOpen ++ c0 ++ fence ++ b =
        '`' :: (['`', '`', 'p', 'y', 't', 'h', 'o', 'n'] ++ (c0 ++ fence ++ b)) := by
      simp [pyOpen]
    rw [hsplit]
    have hdrop : (['`', '`', 'p', 'y', 't', 'h', 'o', 'n'] ++ (c0 ++ fence ++ b)).drop
        (pyOpen.length - 1) = c0 ++ fence ++ b :=
      List.drop_left' (by simp [pyOpen])
    have hocc : occursB fence ((['`', '`', 'p', 'y', 't', 'h', 'o', 'n'] ++
        (c0 ++ fence ++ b)).drop (pyOpen.length - 1)) = true := by
      rw [hdrop]
      exact (occursB_iff _ _).mpr ⟨c0, b, by simp⟩
    obtain ⟨pr, sf, hps⟩ := splitFirst_isSome fence _ hocc
    rw [pyFinds_cons_pos _ _ pr sf (by
        apply List.isPrefixOf_iff_prefix.mpr
        rw [← hsplit]
        simp only [List.nil_append, List.append_assoc]
        exact List.prefix_append _ _) hps]
    simp
  | cons x a' ih =>
    intro c0 b
    have hsplit : (x :: a') ++ pyOpen ++ c0 ++ fence ++ b =
        x :: (a' ++ pyOpen ++ c0 ++ fence ++ b) := by simp
    rw [hsplit]
    by_cases hp : pyOpen.isPrefixOf (x :: (a' ++ pyOpen ++ c0 ++ fence ++ b)) = true
    · have hocc : occursB fence ((a' ++ pyOpen ++ c0 ++ fence ++ b).drop
          (pyOpen.length - 1)) = true := by
        have hlen : 9 ≤ (a' ++ pyOpen ++ c0).length := by
          simp [pyOpen, List.length_append]
          omega
        have hform : a' ++ pyOpen ++ c0 ++ fence ++ b =
            (a' ++ pyOpen ++ c0) ++ (fence ++ b) := by simp
        rw [hform, List.drop_append_eq_append_drop]
        have : pyOpen.length - 1 - (a' ++ pyOpen ++ c0).length = 0 := by
          simp [pyOpen] at hlen ⊢
          omega
        rw [this, List.drop_zero]
        exact (occursB_iff _ _).mpr ⟨(a' ++ pyOpen ++ c0).drop (pyOpen.length - 1), b, by simp⟩
      obtain ⟨pr, sf, hps⟩ := splitFirst_isSome fence _ hocc
      rw [pyFinds_cons_pos _ _ pr sf hp hps]
      simp
    · rw [pyFinds_cons_neg _ _ hp]
      exact ih c0 b

/-- C1: for a response text containing exactly one fenced block tagged
`python` — written `pre ++ pyOpen ++ code ++ fence ++ post` where no
` ```python ` opening occurs before the one shown, the closing fence
shown is the first one after the opening, and no further block (and
hence no further match) exists in `post` — the post-processor of
`display_message` removes the block from the displayed text and returns
the inner code byte-for-byte: `app.py` yields `[code]` as the extracted
code list, `deepseek_app.py` yields `some code`, and both display
`pre ++ post`. -/
theorem c1_python_block_extraction (pre code post : List Char)
    (hpre : occursB pyOpen ((pre ++ pyOpen ++ code ++ fence ++ post).take
      (pre.length + (pyOpen.length - 1))) = false)
    (hcode : occursB fence ((code ++ fence ++ post).take
      (code.length + (fence.length - 1))) = false)
    (hpost : pyFinds post = []) :
    extractPythonApp (pre ++ pyOpen ++ code ++ fence ++ post) = (pre ++ post, [code])
    ∧ extractPythonDs (pre ++ pyOpen ++ code ++ fence ++ post) = (pre ++ post, some code) := by
  have hL := leftmost_of_take pyOpen (pre ++ pyOpen ++ code ++ fence ++ post)
    pre.length (by simp [pyOpen]) hpre
  have hC := leftmost_of_take fence (code ++ fence ++ post)
    code.length (by simp [fence]) hcode
  have hfinds : pyFinds (pre ++ pyOpen ++ code ++ fence ++ post) =
      [(code, pyOpen ++ code ++ fence)] := by
    rw [pyFinds_match pre code post hL hC, hpost]
  have hg0ne : (pyOpen ++ code ++ fence) ≠ [] := by simp [pyOpen]
  have hming0 : ∀ a b, pre ++ (pyOpen ++ code ++ fence) ++ post =
      a ++ (pyOpen ++ code ++ fence) ++ b → pre.length ≤ a.length := by
    intro a b hab
    exact hL a (code ++ fence ++ b) (by
      simp only [List.append_assoc] at hab ⊢
      exact hab)
  have hocc0 : occursB (pyOpen ++ code ++ fence) post = false := by
    cases hq : occursB (pyOpen ++ code ++ fence) post with
    | false => rfl
    | true =>
      obtain ⟨a, b, hab⟩ := (occursB_iff _ _).mp hq
      have hform : post = a ++ pyOpen ++ code ++ fence ++ b := by
        rw [hab]; simp
      exact absurd (hform ▸ hpost) (pyFinds_ne_nil a code b)
  have hrepl : replaceAll (pyOpen ++ code ++ fence)
      (pre ++ pyOpen ++ code ++ fence ++ post) = pre ++ post := by
    have h1 : pre ++ pyOpen ++ code ++ fence ++ post =
        pre ++ (pyOpen ++ code ++ fence) ++ post := by simp
    rw [h1, replaceAll_leftmost _ hg0ne pre post hming0,
      replaceAll_no_occur _ post hocc0]
  constructor
  · simp only [extractPythonApp]
    rw [hfinds]
    simp only [List.foldl_cons, List.foldl_nil, List.map_cons, List.map_nil]
    rw [hrepl]
  · simp only [extractPythonDs, pySearch]
    rw [hfinds]
    simp only [List.head?_cons]
    rw [hrepl]

/-- Witness for C1 on the concrete response
`"A ```python\nx\n``` B"`: the displayed text is `"A  B"` and the
extracted code is `"\nx\n"`. -/
theorem c1_python_block_extraction_witness :
    (occursB pyOpen ((['A', ' '] ++ pyOpen ++ ['\n', 'x', '\n'] ++ fence ++ [' ', 'B']).take
      (['A', ' '].length + (pyOpen.length - 1))) = false
     ∧ occursB fence ((['\n', 'x', '\n'] ++ fence ++ [' ', 'B']).take
      (['\n', 'x', '\n'].length + (fence.length - 1))) = false
     ∧ pyFinds [' ', 'B'] = [])
    ∧ extractPythonApp (['A', ' '] ++ pyOpen ++ ['\n', 'x', '\n'] ++ fence ++ [' ', 'B']) =
        (['A', ' ', ' ', 'B'], [['\n', 'x', '\n']]) :=
  ⟨⟨by decide, by decide,
    by rw [pyFinds_cons_neg _ _ (by decide), pyFinds_cons_neg _ _ (by decide), pyFinds_nil]⟩,
   (c1_python_block_extraction ['A', ' '] ['\n', 'x', '\n'] [' ', 'B']
     (by decide) (by decide)
     (by rw [pyFinds_cons_neg _ _ (by decide), pyFinds_cons_neg _ _ (by decide), pyFinds_nil])).1⟩

theorem matchCI_tagU (t : List Char) : matchCI imageTag (imageTagU ++ t) = some t := rfl

theorem scanRB_cons (c : Char) (cs : List Char) :
    scanRB (c :: cs) =
      if c = ']' then some ([], cs)
      else if c = '\n' then none
      else
        match scanRB cs with
        | some (q, r) => some (c :: q, r)
        | none => none := rfl

theorem scanRB_exact : ∀ q rest : List Char, ']' ∉ q → '\n' ∉ q →
    scanRB (q ++ ']' :: rest) = some (q, rest) := by
  intro q
  induction q with
  | nil =>
    intro rest _ _
    simp only [List.nil_append]
    rw [scanRB_cons, if_pos rfl]
  | cons c q' ih =>
    intro rest h2 h3
    have hc1 : ¬ c = ']' := fun hc => h2 (hc ▸ List.mem_cons_self c q')
    have hc2 : ¬ c = '\n' := fun hc => h3 (hc ▸ List.mem_cons_self c q')
    have : (c :: q') ++ ']' :: rest = c :: (q' ++ ']' :: rest) := by simp
    rw [this, scanRB_cons, if_neg hc1, if_neg hc2,
      ih rest (fun hm => h2 (List.mem_cons_of_mem c hm))
        (fun hm => h3 (List.mem_cons_of_mem c hm))]

theorem takeWhile_rb (between post : List Char) :
    (between ++ ']' :: post).takeWhile pyIsSpace = between.takeWhile pyIsSpace := by
  induction between with
  | nil => simp [List.takeWhile_cons, pyIsSpace]
  | cons c bt ih =>
    simp only [List.cons_append, List.takeWhile_cons]
    by_cases hc : pyIsSpace c
    · simp [hc, ih]
    · simp [hc]

theorem dropWhile_rb (between post : List Char) :
    (between ++ ']' :: post).dropWhile pyIsSpace =
      between.dropWhile pyIsSpace ++ ']' :: post := by
  induction between with
  | nil => simp [List.dropWhile_cons, pyIsSpace]
  | cons c bt ih =>
    simp only [List.cons_append, List.dropWhile_cons]
    by_cases hc : pyIsSpace c
    · simp [hc, ih]
    · simp [hc]

theorem imageSearch_cons (c : Char) (cs : List Char) :
    imageSearch (c :: cs) =
      (if c = '[' then
        match matchCI imageTag cs with
        | some rest =>
          match scanRB (rest.dropWhile pyIsSpace) with
          | some (q, _) =>
              some (q, '[' :: (cs.take imageTag.length ++ rest.takeWhile pyIsSpace ++ q ++ [']']))
          | none => imageSearch cs
        | none => imageSearch cs
      else imageSearch cs) := rfl

theorem imageSearch_marker (between post : List Char)
    (h2 : ']' ∉ between) (h3 : '\n' ∉ between.dropWhile pyIsSpace) :
    imageSearch ('[' :: (imageTagU ++ (between ++ ']' :: post))) =
      some (between.dropWhile pyIsSpace, markerOf between) := by
  rw [imageSearch_cons, if_pos rfl, matchCI_tagU]
  dsimp only
  rw [dropWhile_rb]
  have hq2 : ']' ∉ between.dropWhile pyIsSpace :=
    fun hm => h2 ((List.dropWhile_suffix pyIsSpace).subset hm)
  rw [scanRB_exact _ _ hq2 h3]
  have htake : (imageTagU ++ (between ++ ']' :: post)).take imageTag.length = imageTagU :=
    List.take_left' (by rfl)
  rw [htake, takeWhile_rb]
  simp [markerOf, List.append_assoc, List.takeWhile_append_dropWhile]

theorem imageSearch_skip : ∀ pre rest : List Char, '[' ∉ pre →
    imageSearch (pre ++ rest) = imageSearch rest := by
  intro pre
  induction pre with
  | nil => intro rest _; simp
  | cons c pre' ih =>
    intro rest h1
    have hc : ¬ c = '[' := fun hc => h1 (hc ▸ List.mem_cons_self c pre')
    have : (c :: pre') ++ rest = c :: (pre' ++ rest) := by simp
    rw [this, imageSearch_cons, if_neg hc,
      ih rest (fun hm => h1 (List.mem_cons_of_mem c hm))]

theorem extractImage_first_marker (pre between rest : List Char)
    (h1 : '[' ∉ pre) (h2 : ']' ∉ between)
    (h3 : '\n' ∉ between.dropWhile pyIsSpace)
    (h4 : occursB (markerOf between) rest = false) :
    extractImage (pre ++ markerOf between ++ rest) =
      (pre ++ rest, some (between.dropWhile pyIsSpace)) := by
  have hshape : pre ++ markerOf between ++ rest =
      pre ++ ('[' :: (imageTagU ++ (between ++ ']' :: rest))) := by
    simp [markerOf, List.append_assoc]
  have hsearch : imageSearch (pre ++ markerOf between ++ rest) =
      some (between.dropWhile pyIsSpace, markerOf between) := by
    rw [hshape, imageSearch_skip pre _ h1, imageSearch_marker between rest h2 h3]
  have hmne : markerOf between ≠ [] := by simp [markerOf]
  have hmin : ∀ a b, pre ++ markerOf between ++ rest =
      a ++ markerOf between ++ b → pre.length ≤ a.length := by
    intro a b hab
    exact leftmost_of_head_notin '[' (imageTagU ++ between ++ [']']) pre rest h1 a b
      (by simpa [markerOf] using hab)
  have hrepl : replaceAll (markerOf between) (pre ++ markerOf between ++ rest) =
      pre ++ rest := by
    rw [replaceAll_leftmost _ hmne pre rest hmin, replaceAll_no_occur _ rest h4]
  simp only [extractImage]
  rw [hsearch]
  dsimp only
  rw [hrepl]

/-- C2 counterexample: for the response `"[IMAGE: foo ]"` the captured
query is `"foo "` — the leading whitespace is consumed by `\s*` but the
trailing space is captured by `(.*?)`, so the query is NOT the text
between `IMAGE:` and `]` trimmed of surrounding whitespace (that would
be `"foo"`). -/
theorem c2_trailing_whitespace_counterexample :
    (extractImage (markerOf [' ', 'f', 'o', 'o', ' '])).2 = some ['f', 'o', 'o', ' ']
    ∧ some ['f', 'o', 'o', ' '] ≠ some (pyStrip [' ', 'f', 'o', 'o', ' ']) := by
  constructor
  · have hform : markerOf [' ', 'f', 'o', 'o', ' '] =
        '[' :: (imageTagU ++ ([' ', 'f', 'o', 'o', ' '] ++ ']' :: ([] : List Char))) := by
      simp [markerOf]
    have hs : imageSearch (markerOf [' ', 'f', 'o', 'o', ' ']) =
        some (['f', 'o', 'o', ' '], markerOf [' ', 'f', 'o', 'o', ' ']) := by
      rw [hform, imageSearch_marker _ _ (by decide) (by decide)]
      decide
    simp only [extractImage]
    rw [hs]
  · decide

/-- C2 (amended): for a response text whose single image marker is
`[IMAGE:` ++ `between` ++ `]` (no `[` before it, no marker after it, and
a well-formed body), `display_message` removes the marker from the
displayed text, and the captured query equals the text between `IMAGE:`
and the closing bracket with LEADING whitespace trimmed — trailing
whitespace is preserved. -/
theorem c2_image_marker_extraction (pre between post : List Char)
    (h1 : '[' ∉ pre) (h2 : ']' ∉ between)
    (h3 : '\n' ∉ between.dropWhile pyIsSpace)
    (h4 : occursB (markerOf between) post = false) :
    extractImage (pre ++ markerOf between ++ post) =
      (pre ++ post, some (between.dropWhile pyIsSpace))
    ∧ occursB (markerOf between) (pre ++ post) = false := by
  refine ⟨extractImage_first_marker pre between post h1 h2 h3 h4, ?_⟩
  have : markerOf between = '[' :: (imageTagU ++ between ++ [']']) := by
    simp [markerOf]
  rw [this] at h4 ⊢
  exact occursB_append_head_notin '[' _ pre post h1 h4

/-- Witness for C2 (amended) on `"x [IMAGE: q] y"`: the displayed text
is `"x  y"` and the query is `"q"`. -/
theorem c2_image_marker_extraction_witness :
    ('[' ∉ ['x', ' '] ∧ ( ']' ∉ [' ', 'q'] ) ∧ '\n' ∉ [' ', 'q'].dropWhile pyIsSpace
      ∧ occursB (markerOf [' ', 'q']) [' ', 'y'] = false)
    ∧ extractImage (['x', ' '] ++ markerOf [' ', 'q'] ++ [' ', 'y']) =
        (['x', ' ', ' ', 'y'], some ['q']) :=
  ⟨⟨by decide, by decide, by decide, by decide⟩,
   (c2_image_marker_extraction ['x', ' '] [' ', 'q'] [' ', 'y']
     (by decide) (by decide) (by decide) (by decide)).1⟩

/-- C9 counterexample: in `"[IMAGE: a] x [IMAGE: a]"` the two markers
are byte-identical, and `str.replace(group(0), "")` removes BOTH
occurrences: the displayed text is `" x "`, so the second marker does
NOT remain verbatim in the displayed text as the claim states. -/
theorem c9_duplicate_marker_counterexample :
    extractImage (markerOf [' ', 'a'] ++ ([' ', 'x', ' '] ++ markerOf [' ', 'a'])) =
      ([' ', 'x', ' '], some ['a'])
    ∧ occursB (markerOf [' ', 'a']) [' ', 'x', ' '] = false := by
  constructor
  · have hform : markerOf [' ', 'a'] ++ ([' ', 'x', ' '] ++ markerOf [' ', 'a']) =
        '[' :: (imageTagU ++ ([' ', 'a'] ++ ']' :: ([' ', 'x', ' '] ++ markerOf [' ', 'a']))) := by
      simp [markerOf, List.append_assoc]
    have hsearch : imageSearch (markerOf [' ', 'a'] ++ ([' ', 'x', ' '] ++ markerOf [' ', 'a'])) =
        some (['a'], markerOf [' ', 'a']) := by
      rw [hform, imageSearch_marker _ _ (by decide) (by decide)]
      decide
    have hmne : markerOf [' ', 'a'] ≠ [] := by simp [markerOf]
    have hrepl1 : replaceAll (markerOf [' ', 'a'])
        (markerOf [' ', 'a'] ++ ([' ', 'x', ' '] ++ markerOf [' ', 'a'])) =
        replaceAll (markerOf [' ', 'a']) ([' ', 'x', ' '] ++ markerOf [' ', 'a']) := by
      have h0 : markerOf [' ', 'a'] ++ ([' ', 'x', ' '] ++ markerOf [' ', 'a']) =
          [] ++ markerOf [' ', 'a'] ++ ([' ', 'x', ' '] ++ markerOf [' ', 'a']) := by simp
      rw [h0, replaceAll_leftmost _ hmne [] _ (fun a b _ => by simp)]
      simp
    have hrepl2 : replaceAll (markerOf [' ', 'a']) ([' ', 'x', ' '] ++ markerOf [' ', 'a']) =
        [' ', 'x', ' '] := by
      have h0 : [' ', 'x', ' '] ++ markerOf [' ', 'a'] =
          [' ', 'x', ' '] ++ markerOf [' ', 'a'] ++ [] := by simp
      rw [h0, replaceAll_leftmost _ hmne [' ', 'x', ' '] [] (fun a b hab => by
        exact leftmost_of_head_notin '[' (imageTagU ++ [' ', 'a'] ++ [']'])
          [' ', 'x', ' '] [] (by decide) a b (by simpa [markerOf] using hab))]
      rw [replaceAll]
      simp
    simp only [extractImage]
    rw [hsearch]
    dsimp only
    rw [hrepl1, hrepl2]
  · decide

/-- C9 (amended): for an assistant message containing two or more
`[IMAGE: ...]` markers, `display_message` extracts only the first
marker and performs a single image search with its query; every
occurrence of the exact matched string of the first marker is removed
from the displayed text (so a later byte-identical marker disappears
too), while a later marker that is not byte-identical to the first
remains verbatim in the displayed text and triggers no search. -/
theorem c9_second_marker_remains (pre b1 mid b2 post : List Char)
    (h1 : '[' ∉ pre) (h2 : ']' ∉ b1)
    (h3 : '\n' ∉ b1.dropWhile pyIsSpace)
    (h4 : occursB (markerOf b1) (mid ++ markerOf b2 ++ post) = false) :
    extractImage (pre ++ markerOf b1 ++ (mid ++ markerOf b2 ++ post)) =
      (pre ++ (mid ++ markerOf b2 ++ post), some (b1.dropWhile pyIsSpace))
    ∧ occursB (markerOf b2) (pre ++ (mid ++ markerOf b2 ++ post)) = true := by
  refine ⟨extractImage_first_marker pre b1 (mid ++ markerOf b2 ++ post) h1 h2 h3 h4, ?_⟩
  exact (occursB_iff _ _).mpr ⟨pre ++ mid, post, by simp⟩

/-- Witness for C9 (amended) on `"[IMAGE: a] x [IMAGE: b] y"`: only the
first query `"a"` is captured, and the second marker `[IMAGE: b]`
remains in the displayed text. -/
theorem c9_second_marker_remains_witness :
    ('[' ∉ ([] : List Char) ∧ ']' ∉ [' ', 'a'] ∧ '\n' ∉ [' ', 'a'].dropWhile pyIsSpace
      ∧ occursB (markerOf [' ', 'a']) ([' ', 'x', ' '] ++ markerOf [' ', 'b'] ++ [' ', 'y']) = false)
    ∧ occursB (markerOf [' ', 'b'])
        ([] ++ ([' ', 'x', ' '] ++ markerOf [' ', 'b'] ++ [' ', 'y'])) = true :=
  ⟨⟨by decide, by decide, by decide, by decide⟩,
   (c9_second_marker_remains [] [' ', 'a'] [' ', 'x', ' '] [' ', 'b'] [' ', 'y']
     (by decide) (by decide) (by decide) (by decide)).2⟩

/-- C3: the `search_image` fallback chain.  (1) A 403/429 status from a
Google request makes the Google helper of `deepseek_app.py` yield no
URL; (2)/(3) when the primary key yields no usable URL the whole chain
behaves exactly as if the primary key were absent, i.e. the secondary
key is attempted before the DuckDuckGo fallback, in both source files;
(4)/(5) when every Google attempt yields no URL and DuckDuckGo finds
nothing, the result is the sentinel `"No image found."` or a
`"Search Error: ..."` string.  `search_image` is a total function of
the environment: every provider exception is an outcome value, so no
exception reaches the caller. -/
theorem search_image_ds_eq (env : SearchEnv) (q : String) :
    search_image_ds env q =
      (match (if truthy env.key1 && truthy env.cx then
                google_search_api_ds env q (env.key1.getD "") else none) with
       | some url => url
       | none =>
         match (if truthy env.key2 && truthy env.cx then
                  google_search_api_ds env q (env.key2.getD "") else none) with
         | some url => url
         | none => duckduckgo_search_api env.ddg) := rfl

theorem search_image_app_eq (env : SearchEnv) (q : String) :
    search_image_app env q =
      (match (if truthy env.key1 && truthy env.cx then
                google_search_api_app env q (env.key1.getD "") else none) with
       | some url => url
       | none =>
         match (if truthy env.key2 && truthy env.cx then
                  google_search_api_app env q (env.key2.getD "") else none) with
         | some url => url
         | none => duckduckgo_search_api env.ddg) := rfl

theorem c3_search_image_fallback (env : SearchEnv) (q : String) :
    (∀ key status items, env.google key q = GoogleOutcome.resp status items →
        (status = 403 ∨ status = 429) → google_search_api_ds env q key = none)
    ∧ (google_search_api_ds env q (env.key1.getD "") = none →
        search_image_ds env q = search_image_ds { env with key1 := none } q)
    ∧ (google_search_api_app env q (env.key1.getD "") = none →
        search_image_app env q = search_image_app { env with key1 := none } q)
    ∧ ((∀ key, google_search_api_ds env q key = none) →
        (∀ u, env.ddg ≠ DdgOutcome.found u) →
        search_image_ds env q = "No image found."
          ∨ ∃ m, search_image_ds env q = "Search Error: " ++ m)
    ∧ ((∀ key, google_search_api_app env q key = none) →
        (∀ u, env.ddg ≠ DdgOutcome.found u) →
        search_image_app env q = "No image found."
          ∨ ∃ m, search_image_app env q = "Search Error: " ++ m) := by
  refine ⟨?_, ?_, ?_, ?_, ?_⟩
  · intro key status items hg hst
    simp only [google_search_api_ds, hg]
    rcases hst with rfl | rfl <;> simp
  · intro h
    rw [search_image_ds_eq, search_image_ds_eq]
    have e1 : (if truthy env.key1 && truthy env.cx then
        google_search_api_ds env q (env.key1.getD "") else none) = none := by
      cases hc : (truthy env.key1 && truthy env.cx) with
      | true => simpa using h
      | false => simp
    have e2 : (if truthy ({ env with key1 := none } : SearchEnv).key1 &&
        truthy ({ env with key1 := none } : SearchEnv).cx then
        google_search_api_ds { env with key1 := none } q
          (({ env with key1 := none } : SearchEnv).key1.getD "") else none) = none := rfl
    rw [e1, e2]
    rfl
  · intro h
    rw [search_image_app_eq, search_image_app_eq]
    have e1 : (if truthy env.key1 && truthy env.cx then
        google_search_api_app env q (env.key1.getD "") else none) = none := by
      cases hc : (truthy env.key1 && truthy env.cx) with
      | true => simpa using h
      | false => simp
    have e2 : (if truthy ({ env with key1 := none } : SearchEnv).key1 &&
        truthy ({ env with key1 := none } : SearchEnv).cx then
        google_search_api_app { env with key1 := none } q
          (({ env with key1 := none } : SearchEnv).key1.getD "") else none) = none := rfl
    rw [e1, e2]
    rfl
  · intro hg hd
    rw [search_image_ds_eq]
    have e1 : (if truthy env.key1 && truthy env.cx then
        google_search_api_ds env q (env.key1.getD "") else none) = none := by
      cases hc : (truthy env.key1 && truthy env.cx) with
      | true => simpa using hg _
      | false => simp
    have e2 : (if truthy env.key2 && truthy env.cx then
        google_search_api_ds env q (env.key2.getD "") else none) = none := by
      cases hc : (truthy env.key2 && truthy env.cx) with
      | true => simpa using hg _
      | false => simp
    rw [e1, e2]
    cases hddg : env.ddg with
    | found u => exact absurd hddg (hd u)
    | noResult => left; rfl
    | exnRaised m => right; exact ⟨m, rfl⟩
  · intro hg hd
    rw [search_image_app_eq]
    have e1 : (if truthy env.key1 && truthy env.cx then
        google_search_api_app env q (env.key1.getD "") else none) = none := by
      cases hc : (truthy env.key1 && truthy env.cx) with
      | true => simpa using hg _
      | false => simp
    have e2 : (if truthy env.key2 && truthy env.cx then
        google_search_api_app env q (env.key2.getD "") else none) = none := by
      cases hc : (truthy env.key2 && truthy env.cx) with
      | true => simpa using hg _
      | false => simp
    rw [e1, e2]
    cases hddg : env.ddg with
    | found u => exact absurd hddg (hd u)
    | noResult => left; rfl
    | exnRaised m => right; exact ⟨m, rfl⟩

/-- C4: when the extracted plotting code raises, `execute_plotting_code`
catches the exception (it is a total function, so the turn completes)
and displays an error box whose text starts with `"Graph Error"` and
contains the exception message. -/
theorem c4_plot_error_contained (msg : String) :
    execute_plotting_code (ExecOutcome.raised msg) =
      PlotUi.errorBox ("Graph Error: " ++ msg)
    ∧ ("Graph Error".data).isPrefixOf (("Graph Error: " ++ msg).data) = true
    ∧ OccursIn msg.data (("Graph Error: " ++ msg).data) := by
  refine ⟨rfl, ?_, ?_⟩
  · apply List.isPrefixOf_iff_prefix.mpr
    rw [String.data_append]
    exact List.IsPrefix.trans (by decide) (List.prefix_append _ _)
  · exact (occursB_iff _ _).mpr ⟨("Graph Error: ").data, [], by
      rw [String.data_append]
      simp⟩

/-- Witness for C3 in `envTest`: the primary key gets a 403, the
secondary key gets a 403, DuckDuckGo has no result, and `search_image`
returns the `"No image found."` sentinel rather than raising. -/
theorem c3_search_image_fallback_witness :
    search_image_ds envTest "q" = "No image found."
    ∨ ∃ m, search_image_ds envTest "q" = "Search Error: " ++ m :=
  (c3_search_image_fallback envTest "q").2.2.2.1
    (fun _ => rfl)
    (fun _ h => DdgOutcome.noConfusion h)

theorem runTurns_acc : ∀ (turns : List (String × String)) (log : List ChatMsg),
    runTurns log turns = log ++ turnEntries turns := by
  intro turns
  induction turns with
  | nil => intro log; simp [runTurns, turnEntries]
  | cons t ts ih =>
    intro log
    have : runTurns log (t :: ts) = runTurns (completedTurn log t.1 t.2) ts := rfl
    rw [this, ih, completedTurn, turnEntries]
    simp

theorem turnEntries_length (turns : List (String × String)) :
    (turnEntries turns).length = 2 * turns.length := by
  induction turns with
  | nil => rfl
  | cons t ts ih => simp [turnEntries, ih]; omega

/-- C5 counterexample: after one completed user/assistant turn pair the
`app.py` log holds 3 entries (the seeded greeting plus the pair), not
`2 * 1 = 2` as the claim states; and the `deepseek_app.py` Clear Chat
handler resets the log to the empty list, not to a single seeded
greeting entry. -/
theorem c5_log_count_counterexample :
    (runTurns initMessagesApp [("q", "a")]).length = 3
    ∧ (3 : Nat) ≠ 2 * 1
    ∧ clearChatDs (runTurns initMessagesDs [("q", "a")]) = []
    ∧ (clearChatDs (runTurns initMessagesDs [("q", "a")])).length ≠ 1 :=
  ⟨rfl, by decide, rfl, by decide⟩

/-- C5 (amended): the conversation log is append-only in chronological
order — after `N` completed user/assistant turn pairs it equals the
seeded greeting followed by the `N` pairs in turn order, hence it holds
exactly `1 + 2N` entries (not `2N`: the seed counts).  The `app.py`
Clear Chat handler resets the log to a single assistant greeting entry
(a short greeting, distinct from the seed), while the
`deepseek_app.py` Clear Chat handler resets it to the empty list. -/
theorem c5_log_append_only (turns : List (String × String)) (log : List ChatMsg) :
    runTurns initMessagesApp turns = initMessagesApp ++ turnEntries turns
    ∧ runTurns initMessagesDs turns = initMessagesDs ++ turnEntries turns
    ∧ (runTurns initMessagesApp turns).length = 1 + 2 * turns.length
    ∧ (runTurns initMessagesDs turns).length = 1 + 2 * turns.length
    ∧ (∃ greeting, clearChatApp log = [⟨.assistant, greeting⟩])
    ∧ clearChatDs log = [] := by
  refine ⟨runTurns_acc turns _, runTurns_acc turns _, ?_, ?_, ⟨_, rfl⟩, rfl⟩
  · rw [runTurns_acc]
    simp [initMessagesApp, turnEntries_length]
    omega
  · rw [runTurns_acc]
    simp [initMessagesDs, turnEntries_length]
    omega

theorem countMsg_append (m : ChatMsg) : ∀ a b : List ChatMsg,
    countMsg m (a ++ b) = countMsg m a + countMsg m b := by
  intro a b
  induction a with
  | nil => simp [countMsg]
  | cons x xs ih => simp [countMsg, ih]; omega

/-- C6 counterexample: with empty prior history and user input `"hi"`,
the `deepseek_app.py` payload is `[system, user "hi", user "hi"]` — the
latest user message (a history entry: it is appended to the session log
before the payload is built) appears twice, not exactly once. -/
theorem c6_duplicate_latest_counterexample :
    countMsg ⟨.user, "hi"⟩ (build_payload_ds "S" [] "hi") = 2
    ∧ (2 : Nat) ≠ 1 := by
  exact ⟨by decide, by decide⟩

/-- C6 (amended): the `deepseek_app.py` payload is the system block
followed by the last-10 window of the session log — which already ends
with the just-appended latest user message — followed by the latest
user message once more, so the latest user message appears twice (the
payload ends `..., user input, user input`) and the window holds
`min (N+1) 10` log entries.  The `app.py` payload has no window at
all: it is the system instruction followed by the entire log, in which
every entry other than the system block and the latest user message
occurs exactly as often as in the prior history. -/
theorem c6_payload_structure (sys instr input : String) (hist : List ChatMsg) :
    (∃ front, build_payload_ds sys hist input =
        front ++ [⟨.user, input⟩, ⟨.user, input⟩])
    ∧ (build_payload_ds sys hist input).length = 1 + min (hist.length + 1) 10 + 1
    ∧ (build_payload_app instr hist input).length = hist.length + 2
    ∧ (∀ m : ChatMsg, m.role ≠ .system → m ≠ ⟨.user, input⟩ →
        countMsg m (build_payload_app instr hist input) = countMsg m hist) := by
  have hk : hist.length + 1 - 10 ≤ hist.length := by omega
  have hdrop : takeLastMsgs 10 (hist ++ [⟨.user, input⟩]) =
      hist.drop (hist.length + 1 - 10) ++ [⟨.user, input⟩] := by
    simp only [takeLastMsgs, List.length_append, List.length_cons, List.length_nil]
    rw [List.drop_append_eq_append_drop]
    have h0 : hist.length + 1 - 10 - hist.length = 0 := by omega
    rw [h0]
    rfl
  refine ⟨⟨⟨.system, sys⟩ :: (hist.drop (hist.length + 1 - 10)).map normRoleDs, ?_⟩,
    ?_, ?_, ?_⟩
  · simp only [build_payload_ds]
    rw [hdrop]
    simp [normRoleDs]
  · simp only [build_payload_ds]
    rw [hdrop]
    simp [List.length_drop]
    omega
  · simp [build_payload_app]
  · intro m h1 h2
    simp only [build_payload_app, countMsg]
    rw [countMsg_append]
    have hs : ¬ (⟨.system, instr⟩ : ChatMsg) = m := by
      intro he
      exact h1 (by rw [← he])
    have hu : ¬ (⟨.user, input⟩ : ChatMsg) = m := by
      intro he
      exact h2 he.symm
    simp [countMsg, hs, hu]

/-- C7 counterexample: when `APP_PASSWORD` is unset, `check_login`
returns `True` immediately — the login gate is skipped and the page
renders; rendering is NOT halted as the claim states. -/
theorem c7_password_unset_counterexample :
    check_login none false none = LoginOutcome.rendered
    ∧ loginHalts (check_login none false none) = false :=
  ⟨rfl, rfl⟩

/-- C7 (amended): when `APP_PASSWORD` is unset the login gate is
skipped and the page renders.  Rendering of the rest of the page is
halted (`st.stop`) exactly when `APP_PASSWORD` is set, the session is
not authenticated, and no submission matching the stored password was
made; a matching submission triggers a rerun with the session
authenticated instead. -/
theorem c7_login_gate (appPassword : Option String) (authed : Bool)
    (submitted : Option String) :
    (appPassword = none → check_login appPassword authed submitted = .rendered)
    ∧ (authed = true → check_login appPassword authed submitted = .rendered)
    ∧ (loginHalts (check_login appPassword authed submitted) = true ↔
        appPassword.isSome = true ∧ authed = false ∧
        (∀ stored entered, appPassword = some stored → submitted = some entered →
          entered ≠ stored))
    ∧ (∀ stored, appPassword = some stored → authed = false →
        submitted = some stored →
        check_login appPassword authed submitted = .rerunAuthenticated) := by
  refine ⟨?_, ?_, ?_, ?_⟩
  · rintro rfl
    rfl
  · rintro rfl
    cases appPassword <;> rfl
  · cases appPassword with
    | none => simp [check_login, loginHalts]
    | some stored =>
      cases authed with
      | true => simp [check_login, loginHalts]
      | false =>
        cases submitted with
        | none =>
          constructor
          · intro _
            exact ⟨rfl, rfl, fun s e hs he => by cases he⟩
          · intro _
            rfl
        | some entered =>
          by_cases he : entered = stored
          · subst he
            constructor
            · intro hcontra
              have hc : check_login (some entered) false (some entered) =
                  LoginOutcome.rerunAuthenticated := by
                simp [check_login]
              rw [hc] at hcontra
              simp [loginHalts] at hcontra
            · rintro ⟨_, _, hf⟩
              exact absurd rfl (hf entered entered rfl rfl)
          · constructor
            · intro _
              refine ⟨rfl, rfl, fun s e hs hee => ?_⟩
              injection hs with h1
              injection hee with h2
              subst h1
              subst h2
              exact he
            · intro _
              have hc : check_login (some stored) false (some entered) =
                  LoginOutcome.halted true := by
                simp [check_login, he]
              rw [hc]
              rfl
  · rintro stored rfl rfl rfl
    simp [check_login]

/-- Witness for C7 (amended): with `APP_PASSWORD` unset the page
renders even with no authentication and no submission. -/
theorem c7_login_gate_witness :
    check_login none false none = LoginOutcome.rendered :=
  (c7_login_gate none false none).1 rfl

/-- C8: when the Generate Quiz API call returns a response, the debug
block reads the unassigned module name `quiz_questions` and raises
`NameError` before `parse_quiz_response` is reached, so the handler
result does not depend on the parser at all, the success branch
(activating the quiz session) is unreachable, and the caught exception
is displayed as an error message. -/
theorem c8_generate_quiz_name_error (response : String)
    (parse1 parse2 : String → Option (List QuizQ)) :
    generate_quiz_handler (.ok response) quizQuestionsBindingAtDebug parse1 =
      .errorShown ("Error generating quiz: " ++ nameErrorQuizQuestions)
    ∧ generate_quiz_handler (.ok response) quizQuestionsBindingAtDebug parse1 =
        generate_quiz_handler (.ok response) quizQuestionsBindingAtDebug parse2
    ∧ (∀ qs, generate_quiz_handler (.ok response) quizQuestionsBindingAtDebug parse1 ≠
        .quizActivated qs) :=
  ⟨rfl, rfl, fun _ h => QuizHandlerOutcome.noConfusion h⟩

theorem charToNat_ofNat (m : Nat) (h : m < 0xd800) : (Char.ofNat m).toNat = m := by
  rw [Char.ofNat, dif_pos (Or.inl h)]
  rfl

theorem toLower_idem (c : Char) : Char.toLower (Char.toLower c) = Char.toLower c := by
  simp only [Char.toLower]
  by_cases h : c.toNat ≥ 65 ∧ c.toNat ≤ 90
  · rw [if_pos h, charToNat_ofNat (c.toNat + 32) (by omega), if_neg (by omega)]
  · rw [if_neg h, if_neg h]

theorem pyLower_idem (l : List Char) : pyLower (pyLower l) = pyLower l := by
  induction l with
  | nil => rfl
  | cons c cs ih =>
    simp only [pyLower, List.map_cons, List.cons.injEq] at ih ⊢
    exact ⟨toLower_idem c, ih⟩

theorem dropWhile_dropWhile (p : Char → Bool) (l : List Char) :
    (l.dropWhile p).dropWhile p = l.dropWhile p := by
  induction l with
  | nil => rfl
  | cons c cs ih =>
    by_cases hc : p c
    · simp [List.dropWhile_cons, hc, ih]
    · simp [List.dropWhile_cons, hc]

theorem pyRStrip_prefix (l : List Char) : pyRStrip l <+: l := by
  have h1 : l.reverse.dropWhile pyIsSpace <:+ l.reverse := List.dropWhile_suffix _
  have h2 : (l.reverse.dropWhile pyIsSpace).reverse <+: l.reverse.reverse :=
    List.reverse_prefix.mpr h1
  rwa [List.reverse_reverse] at h2

theorem pyRStrip_idem (l : List Char) : pyRStrip (pyRStrip l) = pyRStrip l := by
  simp only [pyRStrip, List.reverse_reverse]
  rw [dropWhile_dropWhile]

theorem dropWhile_head_false (p : Char → Bool) :
    ∀ (l : List Char) (c : Char) (t : List Char), l.dropWhile p = c :: t → p c = false := by
  intro l
  induction l with
  | nil =>
    intro c t h
    exact absurd h (by simp)
  | cons x xs ih =>
    intro c t h
    by_cases hx : p x
    · rw [List.dropWhile_cons, if_pos hx] at h
      exact ih c t h
    · rw [List.dropWhile_cons, if_neg hx] at h
      injection h with h1 _
      subst h1
      simpa using hx

theorem pyStrip_idem (l : List Char) : pyStrip (pyStrip l) = pyStrip l := by
  have hform : ∀ x : List Char, pyStrip x = pyRStrip (x.dropWhile pyIsSpace) :=
    fun _ => rfl
  have hdw : (pyStrip l).dropWhile pyIsSpace = pyStrip l := by
    cases hs : pyStrip l with
    | nil => rfl
    | cons h t =>
      have hpre : pyStrip l <+: l.dropWhile pyIsSpace := by
        rw [hform]
        exact pyRStrip_prefix _
      rw [hs] at hpre
      obtain ⟨suf, hsuf⟩ := hpre
      have hfalse : pyIsSpace h = false :=
        dropWhile_head_false pyIsSpace l h (t ++ suf) (by rw [← hsuf]; simp)
      rw [List.dropWhile_cons, if_neg (by simp [hfalse])]
  rw [hform (pyStrip l), hdw, hform l, pyRStrip_idem]

theorem pyStripS_idem (s : String) : pyStripS (pyStripS s) = pyStripS s := by
  simp only [pyStripS]
  rw [pyStrip_idem]

theorem pyLowerS_idem (s : String) : pyLowerS (pyLowerS s) = pyLowerS s := by
  simp only [pyLowerS]
  rw [pyLower_idem]


theorem validateItem_invariant (i : Nat) (item : JValue) (v : QuizQ)
    (h : validateItem i item = .ok (some v)) :
    pyLowerS v.question_type = v.question_type
    ∧ pyStripS v.question = v.question
    ∧ (∀ o ∈ v.options, pyStripS o = o)
    ∧ pyStripS v.correct_answer = v.correct_answer
    ∧ pyStripS v.explanation = v.explanation := by
  cases item with
  | jobj fields =>
    simp only [validateItem] at h
    cases hint : pyIntV (jGet fields "question_number" (.jnum (Int.ofNat (i + 1)))) with
    | error e =>
      rw [hint] at h
      exact absurd h (by simp)
    | ok qn =>
      rw [hint] at h
      simp only [Except.ok.injEq, Option.some.injEq] at h
      subst h
      refine ⟨pyLowerS_idem _, pyStripS_idem _, ?_, pyStripS_idem _, pyStripS_idem _⟩
      intro o ho
      simp only at ho
      cases hopt : jGet fields "options" .null with
      | jarr opts =>
        rw [hopt] at ho
        simp only at ho
        obtain ⟨x, _, rfl⟩ := List.mem_map.mp ho
        exact pyStripS_idem _
      | null => rw [hopt] at ho; simp at ho
      | jbool b => rw [hopt] at ho; simp at ho
      | jnum n => rw [hopt] at ho; simp at ho
      | jstr s => rw [hopt] at ho; simp at ho
      | jobj f => rw [hopt] at ho; simp at ho
  | null => exact absurd h (by simp [validateItem])
  | jbool b => exact absurd h (by simp [validateItem])
  | jnum n => exact absurd h (by simp [validateItem])
  | jstr s => exact absurd h (by simp [validateItem])
  | jarr xs => exact absurd h (by simp [validateItem])

theorem validateAll_invariant : ∀ (items : List JValue) (i : Nat) (qs : List QuizQ),
    validateAll i items = .ok qs →
    ∀ q ∈ qs, pyLowerS q.question_type = q.question_type
      ∧ pyStripS q.question = q.question
      ∧ (∀ o ∈ q.options, pyStripS o = o)
      ∧ pyStripS q.correct_answer = q.correct_answer
      ∧ pyStripS q.explanation = q.explanation := by
  intro items
  induction items with
  | nil =>
    intro i qs h q hq
    simp only [validateAll, Except.ok.injEq] at h
    subst h
    simp at hq
  | cons item rest ih =>
    intro i qs h q hq
    simp only [validateAll] at h
    cases hvi : validateItem i item with
    | error e =>
      rw [hvi] at h
      exact absurd h (by simp)
    | ok ov =>
      rw [hvi] at h
      cases ov with
      | none => exact ih (i + 1) qs h q hq
      | some v =>
        cases hva : validateAll (i + 1) rest with
        | error e =>
          rw [hva] at h
          exact absurd h (by simp)
        | ok vs =>
          rw [hva] at h
          simp only [Except.ok.injEq] at h
          subst h
          rcases List.mem_cons.mp hq with rfl | hq'
          · exact validateItem_invariant i item q hvi
          · exact ih (i + 1) vs hva q hq'

/-- C10: whenever `parse_quiz_response` returns a non-`None` result,
the result is a list in which every element is a record with exactly
the keys `question_number` (an `Int`, by the type of `QuizQ`),
`question_type` (invariant under `str.lower`, i.e. lowercased),
`question`, `correct_answer` and `explanation` (each invariant under
`str.strip`, i.e. stripped), and `options` (a list of stripped
strings).  `json.loads` is an arbitrary oracle, so this holds for
every response text and every parse outcome. -/
theorem c10_parse_quiz_response_invariant (jloads : String → Except String JValue)
    (resp : String) (qs : List QuizQ)
    (h : parse_quiz_response jloads resp = some qs) :
    ∀ q ∈ qs, pyLowerS q.question_type = q.question_type
      ∧ pyStripS q.question = q.question
      ∧ (∀ o ∈ q.options, pyStripS o = o)
      ∧ pyStripS q.correct_answer = q.correct_answer
      ∧ pyStripS q.explanation = q.explanation := by
  intro q hq
  unfold parse_quiz_response at h
  dsimp only at h
  cases hfind : pyFindChar '[' resp.data with
  | none =>
    rw [hfind] at h
    exact absurd h (by simp)
  | some si =>
    rw [hfind] at h
    cases hrfind : pyRFindChar ']' resp.data with
    | none =>
      rw [hrfind] at h
      exact absurd h (by simp)
    | some ei =>
      rw [hrfind] at h
      dsimp only at h
      cases hload : jloads (String.mk (subSingleQuotedKeys (subTrailingComma
          (fix_unescaped_quotes ((resp.data.drop si).take (ei + 1 - si)))))) with
      | error e =>
        rw [hload] at h
        exact absurd h (by simp)
      | ok v =>
        rw [hload] at h
        dsimp only at h
        generalize (match v with | JValue.jarr xs => xs | other => [other]) = items at h
        cases hva : validateAll 0 items with
        | error e =>
          rw [hva] at h
          exact absurd h (by simp)
        | ok validated =>
          rw [hva] at h
          simp only [Option.some.injEq] at h
          subst h
          exact validateAll_invariant items 0 validated hva q hq

/-- Witness for C10: a concrete parse through `jloadsTest` returns one
question whose `question_type` is lowercased and whose `question` is
stripped. -/
theorem c10_parse_quiz_response_invariant_witness :
    parse_quiz_response jloadsTest (String.mk ['[', ']']) = some [quizQTest]
    ∧ pyLowerS quizQTest.question_type = quizQTest.question_type
    ∧ pyStripS quizQTest.question = quizQTest.question := by
  have hsub1 : subTrailingComma ['[', ']'] = ['[', ']'] := by
    simp [subTrailingComma]
  have hsub2 : subSingleQuotedKeys ['[', ']'] = ['[', ']'] := by
    simp [subSingleQuotedKeys, scanApos]
  have hp : parse_quiz_response jloadsTest (String.mk ['[', ']']) = some [quizQTest] := by
    unfold parse_quiz_response
    dsimp only
    rw [show pyFindChar '[' (String.mk ['[', ']']).data = some 0 from rfl,
       show pyRFindChar ']' (String.mk ['[', ']']).data = some 1 from rfl]
    dsimp only
    rw [show fix_unescaped_quotes (((String.mk ['[', ']']).data.drop 0).take (1 + 1 - 0)) =
        ['[', ']'] from rfl]
    rw [hsub1, hsub2]
    rfl
  have hinv := c10_parse_quiz_response_invariant jloadsTest (String.mk ['[', ']'])
    [quizQTest] hp quizQTest (by simp)
  exact ⟨hp, hinv.1, hinv.2.1⟩

/-- Witness for C4 at the concrete message `"boom"`. -/
theorem c4_plot_error_contained_witness :
    execute_plotting_code (ExecOutcome.raised "boom") =
      PlotUi.errorBox ("Graph Error: " ++ "boom") :=
  (c4_plot_error_contained "boom").1

/-- Witness for C5 (amended) after one completed turn pair. -/
theorem c5_log_append_only_witness :
    (runTurns initMessagesApp [("q", "a")]).length = 1 + 2 * [("q", "a")].length :=
  (c5_log_append_only [("q", "a")] []).2.2.1

/-- Witness for C6 (amended): an assistant history entry occurs in the
`app.py` payload exactly as often as in the history. -/
theorem c6_payload_structure_witness :
    countMsg ⟨.assistant, "yo"⟩ (build_payload_app "I" [⟨.assistant, "yo"⟩] "hi") =
      countMsg ⟨.assistant, "yo"⟩ [⟨.assistant, "yo"⟩] :=
  (c6_payload_structure "S" "I" "hi" [⟨.assistant, "yo"⟩]).2.2.2
    ⟨.assistant, "yo"⟩ (by decide) (by decide)

/-- Witness for C8 at a concrete response and parser. -/
theorem c8_generate_quiz_name_error_witness :
    generate_quiz_handler (.ok "resp") quizQuestionsBindingAtDebug (fun _ => none) =
      .errorShown ("Error generating quiz: " ++ nameErrorQuizQuestions) :=
  (c8_generate_quiz_name_error "resp" (fun _ => none) (fun _ => none)).1
